import Mathlib

/-!
Shallow embedding of the emotion-detection server (`emotion/server.py`):
the letterbox preprocessing, the detection post-processing (confidence
filtering, greedy NMS, coordinate back-mapping), face-crop extraction,
result aggregation, and the three HTTP endpoints (`/health`, `/detect`,
`/detect_batch`).  Machine floats are embedded as exact rationals; numpy
images are embedded as a size plus a pixel function.  External capabilities
that are not part of this repository (the YOLO detector, `detect_emotion`,
`non_max_suppression`, `scale_coords` from the yolov7 utilities, and the
Flask request machinery) are modelled at their contract boundary, following
the specification's description of each.
-/

namespace EmotionServer

/-- A pixel: one BGR colour triple. -/
abbrev Pixel : Type := ℕ × ℕ × ℕ

/-- A decoded image: height, width, and a pixel function (models a numpy
array of shape h×w×3). -/
structure Img where
  h : ℕ
  w : ℕ
  pix : ℕ → ℕ → Pixel

/-- Python's built-in `round`: round half to even (banker's rounding). -/
def pyRound (q : ℚ) : ℤ :=
  if q - (⌊q⌋ : ℚ) < 1/2 then ⌊q⌋
  else if 1/2 < q - (⌊q⌋ : ℚ) then ⌊q⌋ + 1
  else if ⌊q⌋ % 2 = 0 then ⌊q⌋ else ⌊q⌋ + 1

/-- The letterbox scale `r = imgsz / max(h, w)` from `preprocess_image`. -/
def scaleR (S h w : ℕ) : ℚ := (S : ℚ) / ((max h w : ℕ) : ℚ)

/-- Height after the aspect-ratio-preserving resize: `int(h * r)` when
`r != 1`, otherwise the resize is skipped (`preprocess_image`, line 58-60). -/
def resizedH (S h w : ℕ) : ℕ :=
  if scaleR S h w = 1 then h else (⌊(h : ℚ) * scaleR S h w⌋).toNat

/-- Width after the aspect-ratio-preserving resize: `int(w * r)` when
`r != 1`. -/
def resizedW (S h w : ℕ) : ℕ :=
  if scaleR S h w = 1 then w else (⌊(w : ℚ) * scaleR S h w⌋).toNat

/-- The "before"-side padding `int(round(d/2 - 0.1))` where `d = S - n`
is the leftover after resize (used for both `top` and `left`). -/
def topPadN (S n : ℕ) : ℕ := (pyRound (((S : ℚ) - (n : ℚ)) / 2 - 1/10)).toNat

/-- The "after"-side padding `int(round(d/2 + 0.1))` (used for both
`bottom` and `right`). -/
def botPadN (S n : ℕ) : ℕ := (pyRound (((S : ℚ) - (n : ℚ)) / 2 + 1/10)).toNat

/-- The result of `cv2.resize(img, (w2, h2))`: the output has exactly the
requested size (cv2's documented contract); the interpolated pixel values
are abstracted by the parameter `interp`. -/
def resizeImg (interp : Img → ℕ → ℕ → ℕ → ℕ → Pixel) (img : Img) (h2 w2 : ℕ) : Img :=
  { h := h2, w := w2, pix := fun y x => interp img h2 w2 y x }

/-- The constant gray used for the letterbox border. -/
def grayPix : Pixel := (114, 114, 114)

/-- `cv2.copyMakeBorder(img, top, bottom, left, right, BORDER_CONSTANT, v)`:
pads each side with the constant pixel `v`. -/
def copyMakeBorder (img : Img) (top bottom left right : ℕ) (v : Pixel) : Img :=
  { h := img.h + top + bottom
    w := img.w + left + right
    pix := fun y x =>
      if y < top ∨ top + img.h ≤ y ∨ x < left ∨ left + img.w ≤ x then v
      else img.pix (y - top) (x - left) }

/-- The PreprocessTransform: scale plus the two "before"-side pads.  (The
source spec names the first field scale underscore ratio; that exact name
is avoided here.) -/
structure Transform where
  scale_r : ℚ
  pad_left : ℕ
  pad_top : ℕ

/-- `preprocess_image` (server.py lines 53-80): letterbox resize preserving
aspect ratio, then constant-gray padding to an exact S×S image.  Returns
the padded image and the transform needed to invert coordinates.  The
final tensor conversion (BGR→RGB, /255) does not change geometry and is
not modelled.  The code re-reads `h, w` from the resized array before
padding; these are exactly `resizedH`/`resizedW` (lemma
`preprocess_resized_h` below), which the pad expressions use directly. -/
def preprocess_image (S : ℕ) (interp : Img → ℕ → ℕ → ℕ → ℕ → Pixel) (img : Img) :
    Img × Transform :=
  let h2 := resizedH S img.h img.w
  let w2 := resizedW S img.h img.w
  let resized := if scaleR S img.h img.w = 1 then img else resizeImg interp img h2 w2
  (copyMakeBorder resized (topPadN S h2) (botPadN S h2) (topPadN S w2) (botPadN S w2)
     grayPix,
   { scale_r := scaleR S img.h img.w, pad_left := topPadN S w2, pad_top := topPadN S h2 })

/-- The forward letterbox coordinate map: an original-image coordinate `p`
lands at `p * r + pad` in tensor space. -/
def fwdCoord (r : ℚ) (pad : ℕ) (p : ℚ) : ℚ := p * r + (pad : ℚ)

/-- Modelled from the spec: the inverse transform of the
DetectionPostProcessor (the repository calls `scale_coords` from the
yolov7 utilities, which are not part of this repository's sources):
subtract the pad, divide by the scale, round to integer pixels. -/
def invCoord (r : ℚ) (pad : ℕ) (q : ℚ) : ℤ := pyRound ((q - (pad : ℚ)) / r)

/-- A raw detection candidate produced by the face model on the letterboxed
tensor: a box in tensor space, a detection confidence and a class score. -/
structure Candidate where
  x1 : ℚ
  y1 : ℚ
  x2 : ℚ
  y2 : ℚ
  conf : ℚ
  cls : ℚ
deriving DecidableEq

/-- Intersection-over-union of two candidate boxes (the overlap metric of
greedy NMS); division by zero yields 0 under rational division. -/
def iouQ (a b : Candidate) : ℚ :=
  let ix := max 0 (min a.x2 b.x2 - max a.x1 b.x1)
  let iy := max 0 (min a.y2 b.y2 - max a.y1 b.y1)
  let inter := ix * iy
  let areaA := (a.x2 - a.x1) * (a.y2 - a.y1)
  let areaB := (b.x2 - b.x1) * (b.y2 - b.y1)
  inter / (areaA + areaB - inter)

/-- Candidates whose detection confidence exceeds the threshold. -/
def confFilter (t : ℚ) (l : List Candidate) : List Candidate :=
  l.filter (fun c => decide (t < c.conf))

/-- Stable insertion (descending by confidence): an incoming candidate goes
before the first kept candidate of strictly lower confidence, so candidates
of equal confidence keep their original relative order. -/
def insertDesc (c : Candidate) : List Candidate → List Candidate
  | [] => [c]
  | x :: xs => if c.conf < x.conf then x :: insertDesc c xs else c :: x :: xs

/-- Stable sort by descending confidence. -/
def sortDesc (l : List Candidate) : List Candidate :=
  l.foldr insertDesc []

/-- One pass of greedy NMS over candidates already sorted by descending
confidence: a candidate is kept exactly when no previously kept candidate
overlaps it by more than `thr`. -/
def runNMS (thr : ℚ) : List Candidate → List Candidate → List Candidate
  | kept, [] => kept
  | kept, c :: rest =>
    if kept.any (fun k => decide (thr < iouQ k c)) then runNMS thr kept rest
    else runNMS thr (kept ++ [c]) rest

/-- Modelled from the spec: `non_max_suppression` from the yolov7 utilities
(not part of this repository's sources).  Per the spec, candidates are
filtered by the confidence threshold, sorted by descending confidence with
ties broken by original order (stable sort), and then de-duplicated by
greedy NMS with the IoU threshold, over the single class "face". -/
def nms (conf_thres iou_thres : ℚ) (l : List Candidate) : List Candidate :=
  runNMS iou_thres [] (sortDesc (confFilter conf_thres l))

/-- An integer box in original-image pixel space. -/
structure BoxI where
  x1 : ℤ
  y1 : ℤ
  x2 : ℤ
  y2 : ℤ
deriving DecidableEq

/-- Clamp an integer into the interval bounded by `lo` and `hi`. -/
def clampZ (v lo hi : ℤ) : ℤ := max lo (min v hi)

/-- Modelled from the spec: the DetectionPostProcessor box mapping (the
repository calls `scale_coords(...).round()` from the yolov7 utilities):
each tensor-space coordinate has the pad subtracted, is divided by the
scale, rounded to integer pixels, and clipped to the original image. -/
def scaleDet (t : Transform) (w h : ℕ) (c : Candidate) : BoxI :=
  { x1 := clampZ (invCoord t.scale_r t.pad_left c.x1) 0 (w : ℤ)
    y1 := clampZ (invCoord t.scale_r t.pad_top c.y1) 0 (h : ℤ)
    x2 := clampZ (invCoord t.scale_r t.pad_left c.x2) 0 (w : ℤ)
    y2 := clampZ (invCoord t.scale_r t.pad_top c.y2) 0 (h : ℤ) }

/-- The `face_img.size > 0` guard of server.py line 106: a slice
`original_img[y1:y2, x1:x2]` with coordinates already clipped into the
image is non-empty exactly when the box has positive width and height. -/
def nondegenB (b : BoxI) : Bool := decide (b.x1 < b.x2) && decide (b.y1 < b.y2)

/-- The face crop `original_img[y1:y2, x1:x2]` of server.py line 105. -/
def cropImg (img : Img) (b : BoxI) : Img :=
  { h := (b.y2 - b.y1).toNat
    w := (b.x2 - b.x1).toNat
    pix := fun y x => img.pix (y + b.y1.toNat) (x + b.x1.toNat) }

/-- One returned per-face record (server.py lines 116-121). -/
structure Record where
  box : BoxI
  emotion : String
  emotion_id : ℕ
  confidence : ℚ
deriving DecidableEq

/-- The aggregation loop of server.py lines 115-121:
`for i, (box, emotion_data) in enumerate(zip(face_boxes, emotions))`.
`zip` stops at the shorter sequence.  `detLen` is `len(det)` and
`lastConf` is the value of the loop variable `conf` leaked from the
crop-extraction loop (the confidence of the last row of `det`). -/
def aggRecords (detLen : ℕ) (lastConf : ℚ) :
    ℕ → List BoxI → List (String × ℕ) → List Record
  | _, [], _ => []
  | _, _ :: _, [] => []
  | i, b :: bs, e :: es =>
    { box := b, emotion := e.1, emotion_id := e.2,
      confidence := if i < detLen then lastConf else 0 } ::
    aggRecords detLen lastConf (i + 1) bs es

/-- `detect_faces_and_emotions` (server.py lines 82-123).  The face model
itself is an external capability: its raw output on the letterboxed tensor
is the argument `pred`.  `detect_emotion` is an external capability as
well; per the spec it returns one ordered, length-matched result per crop,
so it is embedded as mapping a per-crop classifier `classify` (which has
the `show_conf` flag already applied) over the crop list. -/
def detect_faces_and_emotions (interp : Img → ℕ → ℕ → ℕ → ℕ → Pixel)
    (classify : Img → String × ℕ) (S : ℕ) (img : Img)
    (conf_thres iou_thres : ℚ) (pred : List Candidate) : List Record :=
  let t := (preprocess_image S interp img).2
  let det := nms conf_thres iou_thres pred
  if det.isEmpty then []
  else
    let lastConf := (det.getLast?).elim 0 Candidate.conf
    let scaled := det.map (scaleDet t img.w img.h)
    let kept := scaled.filter nondegenB
    let emotions := (kept.map (cropImg img)).map classify
    aggRecords det.length lastConf 0 kept emotions

/-- The body of the `/health` response. -/
structure HealthBody where
  status : String
  device : String
deriving DecidableEq

/-- `str(device)` for the global `device`, which is `None` until
`initialize_models` has run and a torch device descriptor afterwards. -/
def strOfDevice (d : Option String) : String := d.getD "None"

/-- `health_check` (server.py lines 125-128): returns HTTP 200 with
`{status: "healthy", device: str(device)}`, unconditionally. -/
def health_check (device : Option String) : ℕ × HealthBody :=
  (200, { status := "healthy", device := strOfDevice device })

/-- The `/detect` request surface needed by the missing-input check:
the names of the uploaded multipart files, and the field names of the
JSON body when the request has a parseable JSON body (`none` models a
request whose body is not JSON, on which Flask's `request.json` access
raises inside the handler's try block). -/
structure DetectRequest where
  files : List String
  json : Option (List String)

/-- The success payload of `/detect` (processing wall-clock time is not
modelled). -/
structure DetectSuccess where
  detections : List Record
  num_faces : ℕ
deriving DecidableEq

/-- An HTTP response body of `/detect`: either `{error: ...}` or the
success payload. -/
inductive DetectOut where
  | err (msg : String)
  | ok (body : DetectSuccess)
deriving DecidableEq

/-- `detect_endpoint` (server.py lines 130-174).  The code after the
missing-input check (parameter parsing, base64 decode, pipeline) is
abstracted as `rest`; any exception it raises is caught by the handler's
`except` clause and becomes a 500 response, exactly as in the source.
The check itself is `if 'image' not in request.files and 'image_base64'
not in request.json`: when no file is present the handler evaluates
`request.json`, which raises for a request without a JSON body — that
exception is also caught by the same `except` clause. -/
def detect_endpoint (rest : Except String DetectSuccess) (req : DetectRequest) :
    ℕ × DetectOut :=
  if req.files.contains "image" then
    match rest with
    | Except.ok s => (200, DetectOut.ok s)
    | Except.error e => (500, DetectOut.err e)
  else
    match req.json with
    | none => (500, DetectOut.err "request body is not JSON")
    | some fields =>
      if fields.contains "image_base64" then
        match rest with
        | Except.ok s => (200, DetectOut.ok s)
        | Except.error e => (500, DetectOut.err e)
      else (400, DetectOut.err "No image provided")

/-- One entry of the `/detect_batch` results list (server.py lines
204-216). -/
structure BatchItemResult where
  image_index : ℕ
  detections : List Record
  num_faces : ℕ
  error : Option String
deriving DecidableEq

/-- The per-item try/except of the batch loop: a successful pipeline run
becomes a normal entry, a raised exception becomes an error entry with
empty detections, without aborting the batch. -/
def processItem {α : Type} (proc : α → Except String (List Record)) (i : ℕ)
    (item : α) : BatchItemResult :=
  match proc item with
  | Except.ok res =>
    { image_index := i, detections := res, num_faces := res.length, error := none }
  | Except.error e =>
    { image_index := i, detections := [], num_faces := 0, error := some e }

/-- The batch loop `for i, image_base64 in enumerate(images_base64)`
starting at index `i`. -/
def batchResultsAux {α : Type} (proc : α → Except String (List Record)) :
    ℕ → List α → List BatchItemResult
  | _, [] => []
  | i, x :: xs => processItem proc i x :: batchResultsAux proc (i + 1) xs

/-- The full `all_results` list of `detect_batch_endpoint`. -/
def batchResults {α : Type} (proc : α → Except String (List Record))
    (items : List α) : List BatchItemResult :=
  batchResultsAux proc 0 items

/-- The JSON body of a `/detect_batch` request: each field is `none` when
absent.  Threshold parsing is modelled at the typed level. -/
structure BatchJson (α : Type) where
  images_base64 : Option (List α)
  conf_thres : Option ℚ
  iou_thres : Option ℚ
  show_conf : Option Bool

/-- An HTTP response body of `/detect_batch` (processing wall-clock time
is not modelled). -/
inductive BatchOut where
  | err (msg : String)
  | ok (results : List BatchItemResult) (total_images : ℕ)
deriving DecidableEq

/-- `detect_batch_endpoint` (server.py lines 176-228).  `proc` abstracts
the per-image decode + pipeline given the shared thresholds and
`show_conf`; defaults are 0.5, 0.45 and true.  A request without a JSON
body raises on the `request.json` access and is caught as a 500. -/
def detect_batch_endpoint {α : Type}
    (proc : ℚ → ℚ → Bool → α → Except String (List Record))
    (json : Option (BatchJson α)) : ℕ × BatchOut :=
  match json with
  | none => (500, BatchOut.err "request body is not JSON")
  | some j =>
    match j.images_base64 with
    | none => (400, BatchOut.err "No images provided")
    | some items =>
      (200, BatchOut.ok
        (batchResults
          (proc (j.conf_thres.getD (1/2)) (j.iou_thres.getD (45/100))
            (j.show_conf.getD true)) items)
        items.length)

/-- A concrete interpolation function for witnesses. -/
def interpEx : Img → ℕ → ℕ → ℕ → ℕ → Pixel := fun _ _ _ _ _ => (0, 0, 0)

/-- A concrete per-crop classifier for witnesses. -/
def classifyEx : Img → String × ℕ := fun _ => ("happy", 0)

/-- A concrete 640×480 black image for witnesses. -/
def imgEx : Img := { h := 480, w := 640, pix := fun _ _ => (0, 0, 0) }

/-- A concrete raw detection in tensor space (maps back to the box
(50, 50, 100, 100) of `imgEx` under the 512-letterbox transform), with
confidence 0.9. -/
def candA : Candidate :=
  { x1 := 40, y1 := 104, x2 := 80, y2 := 144, conf := 9/10, cls := 0 }

/-- A second concrete raw detection, disjoint from `candA` (maps back to
(300, 300, 350, 350)), with confidence 0.7. -/
def candB : Candidate :=
  { x1 := 240, y1 := 304, x2 := 280, y2 := 344, conf := 7/10, cls := 0 }

/-- A concrete model output with two surviving faces of distinct
confidences. -/
def predEx : List Candidate := [candA, candB]

/-- A concrete failing-on-item-1 per-image pipeline for the C2 witness. -/
def procW : ℕ → Except String (List Record) :=
  fun n => if n = 1 then Except.error "bad image" else Except.ok []

/-- A concrete three-image batch for the C2 witness; the middle item
makes `procW` fail. -/
def itemsW : List ℕ := [5, 1, 7]

/-- A record concretely produced by the pipeline, for the C6 witness. -/
def recEx : Record :=
  { box := { x1 := 50, y1 := 50, x2 := 100, y2 := 100 }, emotion := "happy",
    emotion_id := 0, confidence := 7/10 }

theorem pyRound_of_lt_half {q : ℚ} {n : ℤ} (h1 : (n : ℚ) ≤ q)
    (h2 : q - (n : ℚ) < 1/2) : pyRound q = n := by
  have hf : ⌊q⌋ = n := by
    rw [Int.floor_eq_iff]
    constructor
    · exact h1
    · linarith
  unfold pyRound
  rw [hf, if_pos h2]

theorem pyRound_of_gt_half {q : ℚ} {n : ℤ} (h1 : (n : ℚ) ≤ q)
    (h2 : 1/2 < q - (n : ℚ)) (h3 : q < (n : ℚ) + 1) : pyRound q = n + 1 := by
  have hf : ⌊q⌋ = n := by
    rw [Int.floor_eq_iff]
    constructor
    · exact h1
    · linarith
  unfold pyRound
  rw [hf, if_neg (by linarith), if_pos h2]

theorem pyRound_intCast (n : ℤ) : pyRound (n : ℚ) = n := by
  apply pyRound_of_lt_half le_rfl
  norm_num

theorem topPadN_eq {S n : ℕ} (h : n ≤ S) : topPadN S n = (S - n) / 2 := by
  have hc : (S : ℚ) - (n : ℚ) = ((S - n : ℕ) : ℚ) := by
    push_cast [h]
    ring
  unfold topPadN
  rw [hc]
  rcases Nat.even_or_odd (S - n) with ⟨k, hk⟩ | ⟨k, hk⟩
  · have hq : ((S - n : ℕ) : ℚ) / 2 - 1/10 = ((k : ℤ) - 1 : ℤ) + 9/10 := by
      rw [hk]
      push_cast
      ring
    have : pyRound (((S - n : ℕ) : ℚ) / 2 - 1/10) = ((k : ℤ) - 1) + 1 := by
      apply pyRound_of_gt_half <;> rw [hq] <;> push_cast <;> linarith
    rw [this]
    omega
  · have hq : ((S - n : ℕ) : ℚ) / 2 - 1/10 = ((k : ℤ) : ℚ) + 2/5 := by
      rw [hk]
      push_cast
      ring
    have : pyRound (((S - n : ℕ) : ℚ) / 2 - 1/10) = (k : ℤ) := by
      apply pyRound_of_lt_half <;> rw [hq] <;> push_cast <;> linarith
    rw [this]
    omega

theorem botPadN_eq {S n : ℕ} (h : n ≤ S) : botPadN S n = (S - n + 1) / 2 := by
  have hc : (S : ℚ) - (n : ℚ) = ((S - n : ℕ) : ℚ) := by
    push_cast [h]
    ring
  unfold botPadN
  rw [hc]
  rcases Nat.even_or_odd (S - n) with ⟨k, hk⟩ | ⟨k, hk⟩
  · have hq : ((S - n : ℕ) : ℚ) / 2 + 1/10 = ((k : ℤ) : ℚ) + 1/10 := by
      rw [hk]
      push_cast
      ring
    have : pyRound (((S - n : ℕ) : ℚ) / 2 + 1/10) = (k : ℤ) := by
      apply pyRound_of_lt_half <;> rw [hq] <;> push_cast <;> linarith
    rw [this]
    omega
  · have hq : ((S - n : ℕ) : ℚ) / 2 + 1/10 = ((k : ℤ) : ℚ) + 3/5 := by
      rw [hk]
      push_cast
      ring
    have : pyRound (((S - n : ℕ) : ℚ) / 2 + 1/10) = (k : ℤ) + 1 := by
      apply pyRound_of_gt_half <;> rw [hq] <;> push_cast <;> linarith
    rw [this]
    omega

theorem scaleR_mul_le {S h w n : ℕ} (hn : n ≤ max h w) :
    (n : ℚ) * scaleR S h w ≤ (S : ℚ) := by
  unfold scaleR
  by_cases hm : max h w = 0
  · rw [hm]
    push_cast
    rw [div_zero, mul_zero]
    positivity
  · have hmQ : (0 : ℚ) < ((max h w : ℕ) : ℚ) := by
      have : 0 < max h w := Nat.pos_of_ne_zero hm
      exact_mod_cast this
    have hnQ : (n : ℚ) ≤ ((max h w : ℕ) : ℚ) := by exact_mod_cast hn
    rw [mul_div_assoc', div_le_iff hmQ]
    have hS : (0 : ℚ) ≤ (S : ℚ) := by positivity
    nlinarith

theorem resizedH_le (S h w : ℕ) : resizedH S h w ≤ S := by
  unfold resizedH
  by_cases hr : scaleR S h w = 1
  · rw [if_pos hr]
    by_cases hm : max h w = 0
    · have : h = 0 := by omega
      omega
    · have hmQ : ((max h w : ℕ) : ℚ) ≠ 0 := by exact_mod_cast hm
      have hSm : (S : ℚ) = ((max h w : ℕ) : ℚ) := by
        unfold scaleR at hr
        have h2 := (div_eq_iff hmQ).mp hr
        rw [one_mul] at h2
        exact h2
      have hSm2 : S = max h w := by exact_mod_cast hSm
      omega
  · rw [if_neg hr]
    rw [Int.toNat_le]
    have h1 : (h : ℚ) * scaleR S h w ≤ (S : ℚ) := scaleR_mul_le (le_max_left h w)
    calc ⌊(h : ℚ) * scaleR S h w⌋ ≤ ⌊(S : ℚ)⌋ := Int.floor_le_floor h1
    _ = (S : ℤ) := Int.floor_natCast S

theorem resizedW_le (S h w : ℕ) : resizedW S h w ≤ S := by
  unfold resizedW
  by_cases hr : scaleR S h w = 1
  · rw [if_pos hr]
    by_cases hm : max h w = 0
    · have : w = 0 := by omega
      omega
    · have hmQ : ((max h w : ℕ) : ℚ) ≠ 0 := by exact_mod_cast hm
      have hSm : (S : ℚ) = ((max h w : ℕ) : ℚ) := by
        unfold scaleR at hr
        have h2 := (div_eq_iff hmQ).mp hr
        rw [one_mul] at h2
        exact h2
      have hSm2 : S = max h w := by exact_mod_cast hSm
      omega
  · rw [if_neg hr]
    rw [Int.toNat_le]
    have h1 : (w : ℚ) * scaleR S h w ≤ (S : ℚ) := scaleR_mul_le (le_max_right h w)
    calc ⌊(w : ℚ) * scaleR S h w⌋ ≤ ⌊(S : ℚ)⌋ := Int.floor_le_floor h1
    _ = (S : ℤ) := Int.floor_natCast S

theorem preprocess_resized_h (S : ℕ) (interp : Img → ℕ → ℕ → ℕ → ℕ → Pixel)
    (img : Img) :
    (if scaleR S img.h img.w = 1 then img
     else resizeImg interp img (resizedH S img.h img.w) (resizedW S img.h img.w)).h
      = resizedH S img.h img.w := by
  by_cases hr : scaleR S img.h img.w = 1
  · simp [hr, resizedH]
  · simp [hr, resizedH, resizeImg]

theorem preprocess_resized_w (S : ℕ) (interp : Img → ℕ → ℕ → ℕ → ℕ → Pixel)
    (img : Img) :
    (if scaleR S img.h img.w = 1 then img
     else resizeImg interp img (resizedH S img.h img.w) (resizedW S img.h img.w)).w
      = resizedW S img.h img.w := by
  by_cases hr : scaleR S img.h img.w = 1
  · simp [hr, resizedW]
  · simp [hr, resizedW, resizeImg]

/-- C4: letterbox preprocessing outputs an image of exactly S×S pixels:
it resizes by scale `r = S / max(h, w)` preserving aspect ratio (the
resized size is `(int(h*r), int(w*r))`), splits the leftover padding `d`
on each axis as `floor(d/2)` on the top/left side and `ceil(d/2)` on the
bottom/right side, and fills the border with the constant gray
(114, 114, 114). -/
theorem letterbox_exact (S : ℕ) (interp : Img → ℕ → ℕ → ℕ → ℕ → Pixel)
    (img : Img) :
    (preprocess_image S interp img).1.h = S
  ∧ (preprocess_image S interp img).1.w = S
  ∧ resizedH S img.h img.w = (⌊(img.h : ℚ) * scaleR S img.h img.w⌋).toNat
  ∧ resizedW S img.h img.w = (⌊(img.w : ℚ) * scaleR S img.h img.w⌋).toNat
  ∧ topPadN S (resizedH S img.h img.w) = (S - resizedH S img.h img.w) / 2
  ∧ botPadN S (resizedH S img.h img.w) = (S - resizedH S img.h img.w + 1) / 2
  ∧ topPadN S (resizedW S img.h img.w) = (S - resizedW S img.h img.w) / 2
  ∧ botPadN S (resizedW S img.h img.w) = (S - resizedW S img.h img.w + 1) / 2
  ∧ ∀ y x : ℕ,
      (y < topPadN S (resizedH S img.h img.w)
        ∨ topPadN S (resizedH S img.h img.w) + resizedH S img.h img.w ≤ y
        ∨ x < topPadN S (resizedW S img.h img.w)
        ∨ topPadN S (resizedW S img.h img.w) + resizedW S img.h img.w ≤ x) →
      (preprocess_image S interp img).1.pix y x = grayPix := by
  have hH := resizedH_le S img.h img.w
  have hW := resizedW_le S img.h img.w
  have hrh := preprocess_resized_h S interp img
  have hrw := preprocess_resized_w S interp img
  refine ⟨?_, ?_, ?_, ?_, topPadN_eq hH, botPadN_eq hH, topPadN_eq hW,
    botPadN_eq hW, ?_⟩
  · simp only [preprocess_image, copyMakeBorder]
    rw [hrh, topPadN_eq hH, botPadN_eq hH]
    omega
  · simp only [preprocess_image, copyMakeBorder]
    rw [hrw, topPadN_eq hW, botPadN_eq hW]
    omega
  · by_cases hr : scaleR S img.h img.w = 1
    · simp [resizedH, hr, Int.floor_natCast]
    · simp [resizedH, hr]
  · by_cases hr : scaleR S img.h img.w = 1
    · simp [resizedW, hr, Int.floor_natCast]
    · simp [resizedW, hr]
  · intro y x hyx
    simp only [preprocess_image, copyMakeBorder]
    rw [hrh, hrw]
    exact if_pos hyx

/-- Witness for C4 at S = 512 on a concrete 640×480 image: the output is
512×512 and a point in the top border band is gray. -/
theorem letterbox_exact_witness :
    (preprocess_image 512 interpEx imgEx).1.h = 512
  ∧ (preprocess_image 512 interpEx imgEx).1.w = 512
  ∧ (preprocess_image 512 interpEx imgEx).1.pix 0 0 = grayPix :=
  ⟨(letterbox_exact 512 interpEx imgEx).1,
   (letterbox_exact 512 interpEx imgEx).2.1,
   (letterbox_exact 512 interpEx imgEx).2.2.2.2.2.2.2.2 0 0
     (Or.inl (by with_unfolding_all decide))⟩

theorem scaleR_ne_zero {S h w : ℕ} (hS : 0 < S) (hm : 0 < max h w) :
    scaleR S h w ≠ 0 := by
  unfold scaleR
  have h1 : (0 : ℚ) < (S : ℚ) := by exact_mod_cast hS
  have h2 : (0 : ℚ) < ((max h w : ℕ) : ℚ) := by exact_mod_cast hm
  exact ne_of_gt (div_pos h1 h2)

theorem fwd_inv_coord {r : ℚ} (hr : r ≠ 0) (pad : ℕ) (p : ℤ) :
    invCoord r pad (fwdCoord r pad (p : ℚ)) = p := by
  unfold invCoord fwdCoord
  rw [add_sub_cancel_right, mul_div_assoc, div_self hr, mul_one, pyRound_intCast]

/-- C5: the letterbox transform is invertible to within rounding error:
applying the inverse transform (subtract the pad, divide by the scale,
round) to the forward image of any original-space integer point recovers
a point within 1 pixel of the original (in fact exactly, under exact
rational arithmetic). -/
theorem letterbox_roundtrip (S : ℕ) (interp : Img → ℕ → ℕ → ℕ → ℕ → Pixel)
    (img : Img) (p : ℤ) (hS : 0 < S) (hm : 0 < max img.h img.w) :
    |invCoord (preprocess_image S interp img).2.scale_r
        (preprocess_image S interp img).2.pad_top
        (fwdCoord (preprocess_image S interp img).2.scale_r
          (preprocess_image S interp img).2.pad_top (p : ℚ)) - p| ≤ 1
  ∧ |invCoord (preprocess_image S interp img).2.scale_r
        (preprocess_image S interp img).2.pad_left
        (fwdCoord (preprocess_image S interp img).2.scale_r
          (preprocess_image S interp img).2.pad_left (p : ℚ)) - p| ≤ 1 := by
  have hr : (preprocess_image S interp img).2.scale_r ≠ 0 := scaleR_ne_zero hS hm
  constructor <;> rw [fwd_inv_coord hr] <;> simp

/-- Witness for C5 on the concrete 640×480 image with S = 512 at the
original-space point 100. -/
theorem letterbox_roundtrip_witness :
    (0 < 512 ∧ 0 < max imgEx.h imgEx.w)
  ∧ (|invCoord (preprocess_image 512 interpEx imgEx).2.scale_r
        (preprocess_image 512 interpEx imgEx).2.pad_top
        (fwdCoord (preprocess_image 512 interpEx imgEx).2.scale_r
          (preprocess_image 512 interpEx imgEx).2.pad_top ((100 : ℤ) : ℚ)) - 100| ≤ 1
     ∧ |invCoord (preprocess_image 512 interpEx imgEx).2.scale_r
        (preprocess_image 512 interpEx imgEx).2.pad_left
        (fwdCoord (preprocess_image 512 interpEx imgEx).2.scale_r
          (preprocess_image 512 interpEx imgEx).2.pad_left ((100 : ℤ) : ℚ)) - 100| ≤ 1) :=
  ⟨⟨by decide, by decide⟩,
   letterbox_roundtrip 512 interpEx imgEx 100 (by decide) (by decide)⟩

/-- C1 evaluated at a failing input (code bug): on a 640×480 image with
two surviving detections of confidences 0.9 and 0.7, both returned
records carry confidence 0.7 — the Python loop variable `conf` leaks out
of the crop-extraction loop, so every record gets the confidence of the
LAST detection instead of the one it is positionally paired with. -/
theorem confidence_pairs_with_last_detection :
    (detect_faces_and_emotions interpEx classifyEx 512 imgEx (1/2) (45/100)
        predEx).map Record.confidence = [7/10, 7/10]
  ∧ (nms (1/2) (45/100) predEx).map Candidate.conf = [9/10, 7/10] := by
  with_unfolding_all decide

/-- C3 counterexample: handing the aggregation loop two face boxes but
only one emotion result produces a normal, silently shortened list of
one record — no error of any kind is raised (the codomain of the
aggregation has no error case; `zip` stops at the shorter sequence). -/
theorem aggregation_silent_truncation_counterexample :
    ([{ x1 := 50, y1 := 50, x2 := 100, y2 := 100 },
      { x1 := 300, y1 := 300, x2 := 350, y2 := 350 }] : List BoxI).length
      ≠ ([("happy", 0)] : List (String × ℕ)).length
  ∧ (aggRecords 2 (7/10) 0
      [{ x1 := 50, y1 := 50, x2 := 100, y2 := 100 },
       { x1 := 300, y1 := 300, x2 := 350, y2 := 350 }]
      [("happy", 0)]).length = 1 := by
  with_unfolding_all decide

theorem aggRecords_length (detLen : ℕ) (lastConf : ℚ) :
    ∀ (i : ℕ) (bs : List BoxI) (es : List (String × ℕ)),
      (aggRecords detLen lastConf i bs es).length = min bs.length es.length := by
  intro i bs
  induction bs generalizing i with
  | nil => intro es; simp [aggRecords]
  | cons b bs ih =>
    intro es
    cases es with
    | nil => simp [aggRecords]
    | cons e es =>
      simp only [aggRecords, List.length_cons, ih]
      omega

/-- C3 amended: when the face-box and emotion sequences have unequal
lengths, the aggregation silently truncates to the shorter length; no
ProcessingError exists in the code and the mismatch is observable as a
shortened detections list. -/
theorem aggregation_truncates_to_min_length (detLen : ℕ) (lastConf : ℚ)
    (i : ℕ) (bs : List BoxI) (es : List (String × ℕ)) :
    (aggRecords detLen lastConf i bs es).length = min bs.length es.length :=
  aggRecords_length detLen lastConf i bs es

/-- C9 counterexample: queried before model initialization (global
`device` still `None`), the health endpoint reports the very same
"healthy" status that it reports after initialization — there is no
distinct not-ready state. -/
theorem health_healthy_before_init :
    (health_check none).2 = { status := "healthy", device := "None" }
  ∧ (health_check (some "cuda:0")).2.status = (health_check none).2.status :=
  ⟨rfl, rfl⟩

/-- C9 amended: the health endpoint is queryable at all times and always
returns HTTP 200 with status "healthy"; initialization state is visible
only in the `device` field, which is the string "None" before
`initialize_models` completes and the device identifier afterwards. -/
theorem health_check_contract (d : Option String) :
    (health_check d).1 = 200 ∧ (health_check d).2.status = "healthy"
  ∧ (health_check d).2.device = d.getD "None" :=
  ⟨rfl, rfl, rfl⟩

/-- C10: a `/detect_batch` request whose `images_base64` field is present
but an empty list is a valid request: it yields HTTP 200 with
`success = true`, `results = []` and `total_images = 0`, for any
threshold parameters and any per-image pipeline behaviour. -/
theorem empty_batch_success {α : Type}
    (proc : ℚ → ℚ → Bool → α → Except String (List Record))
    (ct it : Option ℚ) (sc : Option Bool) :
    detect_batch_endpoint proc
      (some { images_base64 := some ([] : List α), conf_thres := ct,
              iou_thres := it, show_conf := sc })
      = (200, BatchOut.ok [] 0) := rfl

/-- C8 evaluated at a failing input (code bug): a `/detect` request with
no uploaded `image` file and no JSON body (e.g. a plain form POST) makes
the handler evaluate `request.json`, which raises inside the try block,
so the endpoint answers 500 — not the 400 MissingInputError the spec
promises for missing input. -/
theorem missing_input_gives_500 (rest : Except String DetectSuccess) :
    (detect_endpoint rest { files := [], json := none }).1 = 500
  ∧ detect_endpoint rest { files := [], json := none }
      = (500, DetectOut.err "request body is not JSON") :=
  ⟨rfl, rfl⟩

theorem batchResultsAux_length {α : Type}
    (proc : α → Except String (List Record)) :
    ∀ (i : ℕ) (items : List α),
      (batchResultsAux proc i items).length = items.length := by
  intro i items
  induction items generalizing i with
  | nil => simp [batchResultsAux]
  | cons x xs ih => simp [batchResultsAux, ih]

theorem batchResultsAux_getElem {α : Type}
    (proc : α → Except String (List Record)) :
    ∀ (items : List α) (i j : ℕ),
      (batchResultsAux proc i items)[j]?
        = (items[j]?).map (fun x => processItem proc (i + j) x) := by
  intro items
  induction items with
  | nil => intro i j; simp [batchResultsAux]
  | cons x xs ih =>
    intro i j
    cases j with
    | zero => simp [batchResultsAux]
    | succ j =>
      simp only [batchResultsAux, List.getElem?_cons_succ, ih (i + 1) j]
      have harith : i + 1 + j = i + (j + 1) := by omega
      rw [harith]

theorem processItem_image_index {α : Type}
    (proc : α → Except String (List Record)) (i : ℕ) (x : α) :
    (processItem proc i x).image_index = i := by
  cases hpe : proc x <;> simp [processItem, hpe]

/-- C2: batch isolation.  If the per-image pipeline fails on the item at
position k, the results list still has one entry per input image, every
entry's `image_index` equals its input position, the entry at k is an
error entry with `detections = []` and `num_faces = 0`, and every other
entry is exactly what it is for any input list that agrees outside
position k (in particular, for the batch in which image k does not
fail). -/
theorem batch_isolation {α : Type} (proc : α → Except String (List Record))
    (items : List α) (k : ℕ) (x : α) (e : String)
    (hx : items[k]? = some x) (hfail : proc x = Except.error e) :
    (batchResults proc items).length = items.length
  ∧ (∀ (j : ℕ) (r : BatchItemResult),
      (batchResults proc items)[j]? = some r → r.image_index = j)
  ∧ (batchResults proc items)[k]?
      = some { image_index := k, detections := [], num_faces := 0, error := some e }
  ∧ ∀ (items2 : List α), (∀ j, j ≠ k → items2[j]? = items[j]?) →
      ∀ j, j ≠ k →
        (batchResults proc items2)[j]? = (batchResults proc items)[j]? := by
  refine ⟨batchResultsAux_length proc 0 items, ?_, ?_, ?_⟩
  · intro j r hr
    unfold batchResults at hr
    rw [batchResultsAux_getElem] at hr
    rcases Option.map_eq_some'.mp hr with ⟨y, _, hy2⟩
    rw [← hy2, processItem_image_index]
    omega
  · unfold batchResults
    rw [batchResultsAux_getElem, hx]
    simp [processItem, hfail]
  · intro items2 hagree j hj
    unfold batchResults
    rw [batchResultsAux_getElem, batchResultsAux_getElem, hagree j hj]

/-- Witness for C2 on a concrete three-image batch whose middle image
fails. -/
theorem batch_isolation_witness :
    (itemsW[1]? = some 1 ∧ procW 1 = Except.error "bad image")
  ∧ ((batchResults procW itemsW).length = itemsW.length
     ∧ (∀ (j : ℕ) (r : BatchItemResult),
         (batchResults procW itemsW)[j]? = some r → r.image_index = j)
     ∧ (batchResults procW itemsW)[1]?
         = some { image_index := 1, detections := [], num_faces := 0,
                  error := some "bad image" }
     ∧ ∀ (items2 : List ℕ), (∀ j, j ≠ 1 → items2[j]? = itemsW[j]?) →
         ∀ j, j ≠ 1 →
           (batchResults procW items2)[j]? = (batchResults procW itemsW)[j]?) :=
  ⟨⟨rfl, rfl⟩, batch_isolation procW itemsW 1 1 "bad image" rfl rfl⟩

theorem mem_aggRecords_box (detLen : ℕ) (lastConf : ℚ) :
    ∀ (i : ℕ) (bs : List BoxI) (es : List (String × ℕ)) (rec : Record),
      rec ∈ aggRecords detLen lastConf i bs es → rec.box ∈ bs := by
  intro i bs
  induction bs generalizing i with
  | nil => intro es rec h; simp [aggRecords] at h
  | cons b bs ih =>
    intro es rec h
    cases es with
    | nil => simp [aggRecords] at h
    | cons e es =>
      simp only [aggRecords, List.mem_cons] at h
      rcases h with h | h
      · rw [List.mem_cons]
        left
        rw [h]
      · exact List.mem_cons_of_mem b (ih (i + 1) es rec h)

theorem clampZ_nonneg (v hi : ℤ) : 0 ≤ clampZ v 0 hi := le_max_left 0 _

theorem clampZ_le (v hi : ℤ) (h : 0 ≤ hi) : clampZ v 0 hi ≤ hi :=
  max_le h (min_le_right v hi)

/-- C6: every record returned by the pipeline has a box with
`0 ≤ x1 < x2 ≤ width` and `0 ≤ y1 < y2 ≤ height` of the original image;
zero-area boxes are dropped by the `face_img.size > 0` guard and never
emitted. -/
theorem record_boxes_in_bounds (interp : Img → ℕ → ℕ → ℕ → ℕ → Pixel)
    (classify : Img → String × ℕ) (S : ℕ) (img : Img) (ct it : ℚ)
    (pred : List Candidate) :
    ∀ rec ∈ detect_faces_and_emotions interp classify S img ct it pred,
      0 ≤ rec.box.x1 ∧ rec.box.x1 < rec.box.x2 ∧ rec.box.x2 ≤ (img.w : ℤ)
    ∧ 0 ≤ rec.box.y1 ∧ rec.box.y1 < rec.box.y2 ∧ rec.box.y2 ≤ (img.h : ℤ) := by
  intro rec hrec
  simp only [detect_faces_and_emotions] at hrec
  split at hrec
  · exact absurd hrec (List.not_mem_nil rec)
  · have hbox := mem_aggRecords_box _ _ _ _ _ _ hrec
    rw [List.mem_filter] at hbox
    obtain ⟨hmem, hnd⟩ := hbox
    rw [List.mem_map] at hmem
    obtain ⟨c, _, hbc⟩ := hmem
    simp only [nondegenB, Bool.and_eq_true, decide_eq_true_eq] at hnd
    refine ⟨?_, hnd.1, ?_, ?_, hnd.2, ?_⟩
    · rw [← hbc]
      exact clampZ_nonneg _ _
    · rw [← hbc]
      exact clampZ_le _ _ (Int.natCast_nonneg img.w)
    · rw [← hbc]
      exact clampZ_nonneg _ _
    · rw [← hbc]
      exact clampZ_le _ _ (Int.natCast_nonneg img.h)

/-- Witness for C6: a record produced on the concrete two-face input has
its box inside the 640×480 original image. -/
theorem record_boxes_in_bounds_witness :
    recEx ∈ detect_faces_and_emotions interpEx classifyEx 512 imgEx (1/2)
      (45/100) predEx
  ∧ (0 ≤ recEx.box.x1 ∧ recEx.box.x1 < recEx.box.x2
     ∧ recEx.box.x2 ≤ (imgEx.w : ℤ) ∧ 0 ≤ recEx.box.y1
     ∧ recEx.box.y1 < recEx.box.y2 ∧ recEx.box.y2 ≤ (imgEx.h : ℤ)) :=
  ⟨by with_unfolding_all decide,
   record_boxes_in_bounds interpEx classifyEx 512 imgEx (1/2) (45/100) predEx
     recEx (by with_unfolding_all decide)⟩

theorem mem_insertDesc (c a : Candidate) :
    ∀ s : List Candidate, a ∈ insertDesc c s ↔ a = c ∨ a ∈ s := by
  intro s
  induction s with
  | nil => simp [insertDesc]
  | cons x xs ih =>
    by_cases hcx : c.conf < x.conf
    · simp only [insertDesc, if_pos hcx, List.mem_cons, ih]
      tauto
    · simp only [insertDesc, if_neg hcx, List.mem_cons]

theorem pairwise_insertDesc (c : Candidate) :
    ∀ s : List Candidate, s.Pairwise (fun a b => b.conf ≤ a.conf) →
      (insertDesc c s).Pairwise (fun a b => b.conf ≤ a.conf) := by
  intro s
  induction s with
  | nil => intro _; simp [insertDesc]
  | cons a s ih =>
    intro hp
    rw [List.pairwise_cons] at hp
    obtain ⟨ha, hs⟩ := hp
    by_cases hca : c.conf < a.conf
    · simp only [insertDesc, if_pos hca]
      rw [List.pairwise_cons]
      constructor
      · intro b hb
        rw [mem_insertDesc] at hb
        rcases hb with hb | hb
        · rw [hb]
          exact le_of_lt hca
        · exact ha b hb
      · exact ih hs
    · simp only [insertDesc, if_neg hca]
      rw [List.pairwise_cons]
      constructor
      · intro b hb
        rw [List.mem_cons] at hb
        rcases hb with hb | hb
        · rw [hb]
          exact le_of_not_lt hca
        · exact le_trans (ha b hb) (le_of_not_lt hca)
      · rw [List.pairwise_cons]
        exact ⟨ha, hs⟩

theorem pairwise_sortDesc (l : List Candidate) :
    (sortDesc l).Pairwise (fun a b => b.conf ≤ a.conf) := by
  induction l with
  | nil => simp [sortDesc]
  | cons a l ih => exact pairwise_insertDesc a (sortDesc l) ih

theorem filter_insertDesc_neg (p : Candidate → Bool) (c : Candidate)
    (hp : p c = false) :
    ∀ s : List Candidate, (insertDesc c s).filter p = s.filter p := by
  intro s
  induction s with
  | nil => simp [insertDesc, List.filter_cons, hp]
  | cons a s ih =>
    by_cases hca : c.conf < a.conf
    · simp only [insertDesc, if_pos hca, List.filter_cons, ih]
    · simp only [insertDesc, if_neg hca, List.filter_cons, hp]
      simp

theorem insertDesc_eq_cons (c : Candidate) :
    ∀ s : List Candidate, (∀ b ∈ s, b.conf ≤ c.conf) → insertDesc c s = c :: s := by
  intro s hall
  cases s with
  | nil => rfl
  | cons a s =>
    have ha : a.conf ≤ c.conf := hall a (List.mem_cons_self a s)
    simp [insertDesc, not_lt_of_le ha]

theorem filter_insertDesc_pos (p : Candidate → Bool) (c : Candidate)
    (hp : p c = true) :
    ∀ s : List Candidate, s.Pairwise (fun a b => b.conf ≤ a.conf) →
      (insertDesc c s).filter p = insertDesc c (s.filter p) := by
  intro s
  induction s with
  | nil => intro _; simp [insertDesc, List.filter_cons, hp]
  | cons a s ih =>
    intro hpair
    rw [List.pairwise_cons] at hpair
    obtain ⟨ha, hs⟩ := hpair
    by_cases hca : c.conf < a.conf
    · by_cases hpa : p a = true
      · simp only [insertDesc, if_pos hca, List.filter_cons, hpa, if_true,
          ih hs]
      · have hpa2 : p a = false := by simpa using hpa
        simp only [insertDesc, if_pos hca, List.filter_cons, hpa2, ih hs]
        simp
    · have hac : a.conf ≤ c.conf := le_of_not_lt hca
      have hall : ∀ b ∈ (a :: s).filter p, b.conf ≤ c.conf := by
        intro b hb
        have hb2 : b ∈ a :: s := List.mem_of_mem_filter hb
        rw [List.mem_cons] at hb2
        rcases hb2 with hb2 | hb2
        · rw [hb2]
          exact hac
        · exact le_trans (ha b hb2) hac
      have h1 : insertDesc c (a :: s) = c :: a :: s := by
        simp [insertDesc, hca]
      rw [h1, insertDesc_eq_cons c _ hall]
      simp [List.filter_cons, hp]

theorem sortDesc_filter (p : Candidate → Bool) :
    ∀ l : List Candidate, sortDesc (l.filter p) = (sortDesc l).filter p := by
  intro l
  induction l with
  | nil => rfl
  | cons a l ih =>
    have h3 : sortDesc (a :: l) = insertDesc a (sortDesc l) := rfl
    by_cases hpa : p a = true
    · have h1 : (a :: l).filter p = a :: l.filter p := by
        simp [List.filter_cons, hpa]
      have h2 : sortDesc (a :: l.filter p) = insertDesc a (sortDesc (l.filter p)) := rfl
      rw [h1, h2, h3, ih, ← filter_insertDesc_pos p a hpa (sortDesc l) (pairwise_sortDesc l)]
    · have hpa2 : p a = false := by simpa using hpa
      have h1 : (a :: l).filter p = l.filter p := by
        simp [List.filter_cons, hpa2]
      rw [h1, ih, h3, filter_insertDesc_neg p a hpa2]

theorem filter_subpred {α : Type} (p q : α → Bool)
    (himp : ∀ a, p a = true → q a = true) :
    ∀ l : List α, l.filter p = (l.filter q).filter p := by
  intro l
  induction l with
  | nil => rfl
  | cons a l ih =>
    by_cases hq : q a = true
    · by_cases hp : p a = true
      · simp [List.filter_cons, hp, hq, ih]
      · simp [List.filter_cons, hp, hq, ih]
    · have hp : p a ≠ true := fun hpa => hq (himp a hpa)
      simp [List.filter_cons, hq, hp, ih]

theorem filter_eq_takeWhile_sorted (t : ℚ) :
    ∀ s : List Candidate, s.Pairwise (fun a b => b.conf ≤ a.conf) →
      s.filter (fun c => decide (t < c.conf))
        = s.takeWhile (fun c => decide (t < c.conf)) := by
  intro s
  induction s with
  | nil => intro _; rfl
  | cons a s ih =>
    intro hp
    rw [List.pairwise_cons] at hp
    obtain ⟨ha, hs⟩ := hp
    by_cases hta : t < a.conf
    · simp [List.filter_cons, List.takeWhile_cons, hta, ih hs]
    · have hta2 : decide (t < a.conf) = false := by simpa using hta
      simp only [List.filter_cons, List.takeWhile_cons, hta2, Bool.false_eq_true,
        if_false]
      rw [List.filter_eq_nil]
      intro b hb
      have : b.conf ≤ a.conf := ha b hb
      simp only [decide_eq_true_eq]
      intro htb
      exact hta (lt_of_lt_of_le htb this)

theorem runNMS_append (thr : ℚ) :
    ∀ (l1 l2 kept : List Candidate),
      runNMS thr kept (l1 ++ l2) = runNMS thr (runNMS thr kept l1) l2 := by
  intro l1
  induction l1 with
  | nil => intro l2 kept; rfl
  | cons c l1 ih =>
    intro l2 kept
    simp only [List.cons_append, runNMS]
    by_cases hc : kept.any (fun k => decide (thr < iouQ k c)) = true
    · rw [if_pos hc, if_pos hc]
      exact ih l2 kept
    · rw [if_neg hc, if_neg hc]
      exact ih l2 (kept ++ [c])

theorem sublist_runNMS (thr : ℚ) :
    ∀ (l kept : List Candidate), List.Sublist kept (runNMS thr kept l) := by
  intro l
  induction l with
  | nil => intro kept; exact List.Sublist.refl kept
  | cons c l ih =>
    intro kept
    simp only [runNMS]
    by_cases hc : kept.any (fun k => decide (thr < iouQ k c)) = true
    · rw [if_pos hc]
      exact ih kept
    · rw [if_neg hc]
      exact List.Sublist.trans (List.sublist_append_left kept [c]) (ih (kept ++ [c]))

theorem nms_sublist (it : ℚ) (l : List Candidate) {t1 t2 : ℚ} (h : t1 ≤ t2) :
    List.Sublist (nms t2 it l) (nms t1 it l) := by
  unfold nms confFilter
  have himp : ∀ c : Candidate,
      decide (t2 < c.conf) = true → decide (t1 < c.conf) = true := by
    intro c hc
    rw [decide_eq_true_eq] at hc ⊢
    linarith
  rw [filter_subpred _ _ himp l, sortDesc_filter,
    filter_eq_takeWhile_sorted t2 _ (pairwise_sortDesc _)]
  have hsplit :
      List.takeWhile (fun c : Candidate => decide (t2 < c.conf))
          (sortDesc (l.filter fun c => decide (t1 < c.conf)))
        ++ List.dropWhile (fun c : Candidate => decide (t2 < c.conf))
          (sortDesc (l.filter fun c => decide (t1 < c.conf)))
        = sortDesc (l.filter fun c => decide (t1 < c.conf)) :=
    List.takeWhile_append_dropWhile _ _
  conv_rhs => rw [← hsplit]
  rw [runNMS_append]
  exact sublist_runNMS it _ _

theorem dfae_length (interp : Img → ℕ → ℕ → ℕ → ℕ → Pixel)
    (classify : Img → String × ℕ) (S : ℕ) (img : Img) (ct it : ℚ)
    (pred : List Candidate) :
    (detect_faces_and_emotions interp classify S img ct it pred).length
      = (((nms ct it pred).map
            (scaleDet (preprocess_image S interp img).2 img.w img.h)).filter
          nondegenB).length := by
  simp only [detect_faces_and_emotions]
  split
  · next hemp =>
    have hnil : nms ct it pred = [] := by simpa using hemp
    rw [hnil]
    rfl
  · rw [aggRecords_length]
    simp only [List.length_map]
    exact min_self _

/-- C7: for a fixed image, fixed raw model output and fixed `iou_thres`,
the number of returned faces is monotonically non-increasing in
`conf_thres`: raising the confidence threshold never increases
`num_faces`. -/
theorem num_faces_monotone (interp : Img → ℕ → ℕ → ℕ → ℕ → Pixel)
    (classify : Img → String × ℕ) (S : ℕ) (img : Img) (it : ℚ)
    (pred : List Candidate) {t1 t2 : ℚ} (h : t1 ≤ t2) :
    (detect_faces_and_emotions interp classify S img t2 it pred).length
      ≤ (detect_faces_and_emotions interp classify S img t1 it pred).length := by
  rw [dfae_length, dfae_length]
  exact List.Sublist.length_le
    (List.Sublist.filter _ (List.Sublist.map _ (nms_sublist it pred h)))

/-- Witness for C7 at thresholds 0.5 ≤ 0.75 on the concrete two-face
input (where the counts are concretely 1 ≤ 2). -/
theorem num_faces_monotone_witness :
    ((1 : ℚ)/2 ≤ 3/4)
  ∧ (detect_faces_and_emotions interpEx classifyEx 512 imgEx (3/4) (45/100)
        predEx).length
      ≤ (detect_faces_and_emotions interpEx classifyEx 512 imgEx (1/2) (45/100)
          predEx).length :=
  ⟨by norm_num,
   num_faces_monotone interpEx classifyEx 512 imgEx (45/100) predEx (by norm_num)⟩

end EmotionServer
